import Mathlib

/-!
# Verification of the ferret-8 CHIP-8 interpreter core

A shallow embedding of the interpreter's data model and operations,
translated from the Rust sources (`src/decoder.rs`, `src/emulator.rs`,
`src/emulator/stack.rs`, `src/emulator/display.rs`, `src/main.rs`),
together with theorems settling the specification's claims.

Conventions of the embedding:
* machine integers (`u8`, `u16`, `usize`) are `Nat` with wrapping made
  explicit as `% 256`, `% 4096`, `% 2 ^ 64` where the source wraps;
* fixed arrays (`memory`, `reg`, the stack slots, the framebuffer cells)
  are total functions `Nat → _`; the program only ever stores in-range
  values in them, and theorems add range hypotheses where a claim needs
  them;
* a Rust `&mut self` method returning `Result<_, E>` becomes a pure
  function returning `State × Option E`: the returned state is the value
  of `self` after the call, which on the error paths of this code is the
  state at the early `return Err(..)` (no rollback is modelled — none
  exists in the source);
* a Rust panic (an out-of-bounds array index) becomes `Option.none`.
-/

namespace Ferret8

/-- Pointwise update of a function-represented array: Rust `a[k] = v`. -/
def update {α : Type} (f : Nat → α) (k : Nat) (v : α) : Nat → α :=
  fun i => if i = k then v else f i

@[simp] theorem update_same {α : Type} (f : Nat → α) (k : Nat) (v : α) :
    update f k v k = v := by simp [update]

theorem update_other {α : Type} (f : Nat → α) (k : Nat) (v : α) (i : Nat)
    (h : i ≠ k) : update f k v i = f i := by simp [update, h]

/-- Embeds `EmuError` from `src/emulator/error.rs`. -/
inductive EmuError : Type
  | InvalidAddress (n : Nat)
  | ProgramTooBig (n : Nat)
  | UnknownFont (x : Nat)
  | UnknownKey (x : Nat)
  deriving DecidableEq, Repr

/-- Embeds `StackError` from `src/emulator/stack/error.rs`. -/
inductive StackError : Type
  | Overflow
  | Underflow
  deriving DecidableEq, Repr

/-- Embeds `DecodeError` from `src/decoder/error.rs`. -/
inductive DecodeError : Type
  | NotImplemented (n : Nat)
  | Unknown (n : Nat)
  deriving DecidableEq, Repr

/-- Embeds `STACK_SIZE` from `src/emulator/stack.rs`. -/
def STACK_SIZE : Nat := 16

/-- The CHIP-8 call stack from `src/emulator/stack.rs`: a fixed array of
16 slots and a pointer counting the entries. -/
structure Stack where
  arr : Nat → Nat
  sp : Nat

/-- Embeds `Stack::new` / `Stack::default`. -/
def Stack.new : Stack := ⟨fun _ => 0, 0⟩

/-- Embeds `Stack::push`: fails with `Overflow` on a full stack, otherwise
stores at the pointer and increments it. -/
def Stack.push (s : Stack) (v : Nat) : Except StackError Stack :=
  if s.sp ≥ STACK_SIZE then .error .Overflow
  else .ok ⟨update s.arr s.sp v, s.sp + 1⟩

/-- Embeds `Stack::pop`: fails with `Underflow` on an empty stack, otherwise
decrements the pointer and returns the freed slot's value. -/
def Stack.pop (s : Stack) : Except StackError (Nat × Stack) :=
  if s.sp = 0 then .error .Underflow
  else .ok (s.arr (s.sp - 1), ⟨s.arr, s.sp - 1⟩)

/-- Sequential pushes (the loop of the stack module's own `test_push`). -/
def Stack.pushAll (s : Stack) : List Nat → Except StackError Stack
  | [] => .ok s
  | v :: vs =>
    match s.push v with
    | .error e => .error e
    | .ok s' => s'.pushAll vs

/-- Runs `n` sequential pops, returning the popped values in pop order. -/
def Stack.popN (s : Stack) : Nat → Except StackError (List Nat × Stack)
  | 0 => .ok ([], s)
  | n + 1 =>
    match s.pop with
    | .error e => .error e
    | .ok (v, s') =>
      match s'.popN n with
      | .error e => .error e
      | .ok (l, s'') => .ok (v :: l, s'')

/-- Embeds `DISPLAY_WIDTH` (src/emulator/display.rs). -/
def DISPLAY_WIDTH : Nat := 64
/-- Embeds `DISPLAY_HEIGHT` (src/emulator/display.rs). -/
def DISPLAY_HEIGHT : Nat := 32

/-- The 64×32 monochrome framebuffer from `src/emulator/display.rs`:
a single row-major array of `DISPLAY_HEIGHT * DISPLAY_WIDTH = 2048`
cells. -/
structure Display where
  arr : Nat → Bool

/-- Embeds `Display::transform_cords`: `(y * DISPLAY_WIDTH) + x`.  The source
carries a `debug_assert!((x < DISPLAY_WIDTH) && (y < DISPLAY_HEIGHT))`
which is compiled out of release builds; the raw linear index is used
unconditionally. -/
def transform_cords (x y : Nat) : Nat := y * DISPLAY_WIDTH + x

/-- Embeds `Display::new` / `Display::default`: all cells off. -/
def Display.new : Display := ⟨fun _ => false⟩

/-- Embeds `Display::set`.  Rust bounds-checks `self.array[idx]`; an index past
the 2048 cells panics, modelled as `none`. -/
def Display.set (d : Display) (x y : Nat) (v : Bool) : Option Display :=
  let idx := transform_cords x y
  if idx < DISPLAY_HEIGHT * DISPLAY_WIDTH then some ⟨update d.arr idx v⟩
  else none

/-- Embeds `Display::get`, with the same bounds-check as `Display.set`. -/
def Display.get (d : Display) (x y : Nat) : Option Bool :=
  let idx := transform_cords x y
  if idx < DISPLAY_HEIGHT * DISPLAY_WIDTH then some (d.arr idx)
  else none

/-- Embeds `Display::clear`. -/
def Display.clear (_ : Display) : Display := ⟨fun _ => false⟩

/-- Embeds `Instruction` from `src/decoder.rs` (register indices and
immediates as `Nat`). -/
inductive Instruction : Type
  | Cls
  | Return
  | SetPC (n : Nat)
  | Call (n : Nat)
  | SeInmm (x : Nat) (nn : Nat)
  | SneInmm (x : Nat) (nn : Nat)
  | SeReg (x : Nat) (y : Nat)
  | SneReg (x : Nat) (y : Nat)
  | LoadInmm (x : Nat) (nn : Nat)
  | Sum (x : Nat) (nn : Nat)
  | LoadI (n : Nat)
  | Jump (n : Nat)
  | Rand (x : Nat) (nn : Nat)
  | Display (x : Nat) (y : Nat) (n : Nat)
  | LoadReg (x : Nat) (y : Nat)
  | Or (x : Nat) (y : Nat)
  | And (x : Nat) (y : Nat)
  | Xor (x : Nat) (y : Nat)
  | Add (x : Nat) (y : Nat)
  | Sub (x : Nat) (y : Nat)
  | ShiftRight (x : Nat) (y : Nat)
  | SubRev (x : Nat) (y : Nat)
  | ShiftLeft (x : Nat) (y : Nat)
  | Skip (x : Nat)
  | Snkip (x : Nat)
  | GetDelay (x : Nat)
  | WaitKey (x : Nat)
  | LoadDelay (x : Nat)
  | LoadSound (x : Nat)
  | AddI (x : Nat)
  | LoadFont (x : Nat)
  | Bcd (x : Nat)
  | StMem (x : Nat)
  | LdMem (x : Nat)
  deriving DecidableEq, Repr

/-- Embeds `MEMORY_SIZE` (src/emulator.rs). -/
def MEMORY_SIZE : Nat := 4096
/-- Embeds `REG_SIZE` (src/emulator.rs). -/
def REG_SIZE : Nat := 16
/-- Embeds `START_ADDR` (src/emulator.rs). -/
def START_ADDR : Nat := 0x200
/-- Embeds `REG_F` (src/emulator.rs). -/
def REG_F : Nat := 15
/-- Embeds `KEY_SIZE` (src/emulator.rs). -/
def KEY_SIZE : Nat := 16
/-- Embeds `MODERN_COMPATIBILITY` (src/emulator.rs): compile-time constant. -/
def MODERN_COMPATIBILITY : Bool := true

/-- The machine state of `Emulator` (src/emulator.rs). -/
structure Emulator where
  memory : Nat → Nat
  reg : Nat → Nat
  reg_i : Nat
  reg_pc : Nat
  reg_delay : Nat
  reg_sound : Nat
  display : Display
  stack : Stack

namespace Emulator

/-- Embeds `Emulator::fetch`: reads the big-endian word at `pc`
(`(memory[pc] << 8) + memory[pc+1]`), errors with `InvalidAddress(pc)`
when `pc + 1 ≥ MEMORY_SIZE`, and advances `pc` by 2 before returning. -/
def fetch (e : Emulator) : Emulator × Except EmuError Nat :=
  if e.reg_pc + 1 ≥ MEMORY_SIZE then (e, .error (.InvalidAddress e.reg_pc))
  else ({ e with reg_pc := e.reg_pc + 2 },
        .ok (e.memory e.reg_pc * 256 + e.memory (e.reg_pc + 1)))

/-- Embeds `Emulator::clear_display`. -/
def clear_display (e : Emulator) : Emulator :=
  { e with display := e.display.clear }

/-- Embeds `Emulator::ret`: `pc := stack.pop()`, propagating `Underflow`. -/
def ret (e : Emulator) : Emulator × Option StackError :=
  match e.stack.pop with
  | .error s => (e, some s)
  | .ok (v, s') => ({ e with reg_pc := v, stack := s' }, none)

/-- Embeds `Emulator::set_pc`. -/
def set_pc (e : Emulator) (addr : Nat) : Emulator :=
  { e with reg_pc := addr }

/-- Embeds `Emulator::call`: push the current `pc`, then `pc := addr`.  The
`?` on the push returns before `pc` is assigned, so an `Overflow`
leaves the whole state untouched. -/
def call (e : Emulator) (addr : Nat) : Emulator × Option StackError :=
  match e.stack.push e.reg_pc with
  | .error s => (e, some s)
  | .ok s' => ({ e with stack := s', reg_pc := addr }, none)

/-- Embeds `Emulator::se_inmm`. -/
def se_inmm (e : Emulator) (reg : Nat) (inmm : Nat) : Emulator :=
  if e.reg reg = inmm then { e with reg_pc := e.reg_pc + 2 } else e

/-- Embeds `Emulator::sne_inmm`. -/
def sne_inmm (e : Emulator) (reg : Nat) (inmm : Nat) : Emulator :=
  if e.reg reg ≠ inmm then { e with reg_pc := e.reg_pc + 2 } else e

/-- Embeds `Emulator::se_reg`. -/
def se_reg (e : Emulator) (rx ry : Nat) : Emulator :=
  if e.reg rx = e.reg ry then { e with reg_pc := e.reg_pc + 2 } else e

/-- Embeds `Emulator::sne_reg`. -/
def sne_reg (e : Emulator) (rx ry : Nat) : Emulator :=
  if e.reg rx ≠ e.reg ry then { e with reg_pc := e.reg_pc + 2 } else e

/-- Embeds `Emulator::load_inmm`. -/
def load_inmm (e : Emulator) (reg inmm : Nat) : Emulator :=
  { e with reg := update e.reg reg inmm }

/-- Embeds `Emulator::sum`: `u8::wrapping_add`, VF untouched. -/
def sum (e : Emulator) (reg inmm : Nat) : Emulator :=
  { e with reg := update e.reg reg ((e.reg reg + inmm) % 256) }

/-- Embeds `Emulator::load_i`. -/
def load_i (e : Emulator) (inmm : Nat) : Emulator :=
  { e with reg_i := inmm }

/-- Embeds `Emulator::jump`: `sum = V0.wrapping_add(inmm)` on `usize` (no
wrap occurs for the u8 + 12-bit operands the program produces); errors
with `InvalidAddress(sum)` when `sum > MEMORY_SIZE`, otherwise
`pc := sum` — note the strict `>`: `sum = 4096` is accepted. -/
def jump (e : Emulator) (inmm : Nat) : Emulator × Option EmuError :=
  let sum := e.reg 0 + inmm
  if sum > MEMORY_SIZE then (e, some (.InvalidAddress sum))
  else ({ e with reg_pc := sum }, none)

/-- Embeds `Emulator::rand`: `r` is the byte drawn from the RNG. -/
def rand (e : Emulator) (reg inmm : Nat) (r : Nat) : Emulator :=
  { e with reg := update e.reg reg (r &&& inmm) }

/-- Embeds `Emulator::load_reg`. -/
def load_reg (e : Emulator) (rx ry : Nat) : Emulator :=
  { e with reg := update e.reg rx (e.reg ry) }

/-- Embeds `Emulator::or`. -/
def orOp (e : Emulator) (rx ry : Nat) : Emulator :=
  { e with reg := update e.reg rx (e.reg rx ||| e.reg ry) }

/-- Embeds `Emulator::and`. -/
def andOp (e : Emulator) (rx ry : Nat) : Emulator :=
  { e with reg := update e.reg rx (e.reg rx &&& e.reg ry) }

/-- Embeds `Emulator::xor`. -/
def xorOp (e : Emulator) (rx ry : Nat) : Emulator :=
  { e with reg := update e.reg rx (e.reg rx ^^^ e.reg ry) }

/-- Embeds `Emulator::add`: `overflowing_add` reads both operands first; the
sum is written to `reg[rx]` and **then** the carry to `reg[REG_F]`. -/
def add (e : Emulator) (rx ry : Nat) : Emulator :=
  let s := e.reg rx + e.reg ry
  let e1 := { e with reg := update e.reg rx (s % 256) }
  { e1 with reg := update e1.reg REG_F (if 256 ≤ s then 1 else 0) }

/-- Embeds `Emulator::sub`: both operands are read into locals, the borrow
flag is written to `reg[REG_F]` **first**, and the wrapped difference
(`u8::wrapping_sub`, i.e. `(x + 256 - y) % 256` on byte values) is
written to `reg[rx]` afterwards. -/
def sub (e : Emulator) (rx ry : Nat) : Emulator :=
  let x := e.reg rx
  let y := e.reg ry
  let d := (x + 256 - y) % 256
  let e1 := { e with reg := update e.reg REG_F (if y < x then 1 else 0) }
  { e1 with reg := update e1.reg rx d }

/-- Embeds `Emulator::rev_sub`: symmetric to `Emulator.sub`, flag first. -/
def rev_sub (e : Emulator) (rx ry : Nat) : Emulator :=
  let x := e.reg rx
  let y := e.reg ry
  let d := (y + 256 - x) % 256
  let e1 := { e with reg := update e.reg REG_F (if x < y then 1 else 0) }
  { e1 with reg := update e1.reg rx d }

/-- Embeds `Emulator::right_shift`: flag `reg[ry] & 1` is written to
`reg[REG_F]` first; then `reg[rx] := reg[ry] >> 1`, re-reading
`reg[ry]` **after** the flag write (the source indexes the register
file again). -/
def right_shift (e : Emulator) (rx ry : Nat) : Emulator :=
  let e1 :=
    { e with reg := update e.reg REG_F (if e.reg ry % 2 = 1 then 1 else 0) }
  { e1 with reg := update e1.reg rx (e1.reg ry / 2) }

/-- Embeds `Emulator::left_shift`: flag `(reg[ry] & 0x80) >> 7` first; then
`reg[rx] := reg[ry] << 1` on `u8` (`* 2 % 256`), re-reading `reg[ry]`
after the flag write. -/
def left_shift (e : Emulator) (rx ry : Nat) : Emulator :=
  let e1 :=
    { e with reg := update e.reg REG_F (if e.reg ry / 128 % 2 = 1 then 1 else 0) }
  { e1 with reg := update e1.reg rx (e1.reg ry * 2 % 256) }

/-- Embeds `Emulator::skip_key`. -/
def skip_key (e : Emulator) (reg : Nat) (keys : Nat → Bool) :
    Emulator × Option EmuError :=
  let value := e.reg reg
  if value ≥ KEY_SIZE then (e, some (.UnknownKey value))
  else if keys value then ({ e with reg_pc := e.reg_pc + 2 }, none)
  else (e, none)

/-- Embeds `Emulator::snkip_key`. -/
def snkip_key (e : Emulator) (reg : Nat) (keys : Nat → Bool) :
    Emulator × Option EmuError :=
  let value := e.reg reg
  if value ≥ KEY_SIZE then (e, some (.UnknownKey value))
  else if keys value then (e, none)
  else ({ e with reg_pc := e.reg_pc + 2 }, none)

/-- Embeds `Emulator::get_delay`. -/
def get_delay (e : Emulator) (reg : Nat) : Emulator :=
  { e with reg := update e.reg reg e.reg_delay }

/-- Embeds `Emulator::load_delay`. -/
def load_delay (e : Emulator) (reg : Nat) : Emulator :=
  { e with reg_delay := e.reg reg }

/-- Embeds `Emulator::load_sound`. -/
def load_sound (e : Emulator) (reg : Nat) : Emulator :=
  { e with reg_sound := e.reg reg }

/-- Embeds `Emulator::add_to_index`: `reg_i := reg_i + reg[x]` first, then the
flag from the **new** `reg_i`. -/
def add_to_index (e : Emulator) (reg : Nat) : Emulator :=
  let e1 := { e with reg_i := e.reg_i + e.reg reg }
  { e1 with reg := update e1.reg REG_F (if e1.reg_i > 0x0FFF then 1 else 0) }

/-- Embeds `Emulator::wait_key`: when the indexed key is up, `reg_pc -= 2` on
`usize`; a release build wraps modulo `2 ^ 64` when `pc < 2` (a debug
build would panic there). -/
def wait_key (e : Emulator) (reg : Nat) (keys : Nat → Bool) :
    Emulator × Option EmuError :=
  let value := e.reg reg
  if value ≥ KEY_SIZE then (e, some (.UnknownKey value))
  else if keys value then (e, none)
  else ({ e with reg_pc := (e.reg_pc + 2 ^ 64 - 2) % 2 ^ 64 }, none)

/-- Embeds `FONT_START_ADDRESS`.  Modelled from the spec: `src/emulator/font.rs`
is absent from the sources; the spec (§3) reserves a fixed subrange for
the 16 glyphs and offers `0x050..0x0A0`, adopted here. -/
def FONT_START_ADDRESS : Nat := 0x050

/-- Embeds `FONT_SIZE`.  Modelled from the spec: each glyph is 5 bytes. -/
def FONT_SIZE : Nat := 5

/-- Embeds `Emulator::load_font`: the source enumerates the sixteen values
`0x0..0xF`, each arm setting `reg_i := FONT_START_ADDRESS + FONT_SIZE * v`,
and any other value errors with `UnknownFont`. -/
def load_font (e : Emulator) (reg : Nat) : Emulator × Option EmuError :=
  let value := e.reg reg
  if value < 16 then ({ e with reg_i := FONT_START_ADDRESS + FONT_SIZE * value }, none)
  else (e, some (.UnknownFont value))

/-- Embeds `Emulator::binary_dec`: checks `I`, `I+1`, `I+2` against
`MEMORY_SIZE` in order, then writes the three decimal digits. -/
def binary_dec (e : Emulator) (reg : Nat) : Emulator × Option EmuError :=
  let value := e.reg reg
  let p0 := e.reg_i
  let p1 := e.reg_i + 1
  let p2 := e.reg_i + 2
  if p0 ≥ MEMORY_SIZE then (e, some (.InvalidAddress p0))
  else if p1 ≥ MEMORY_SIZE then (e, some (.InvalidAddress p1))
  else if p2 ≥ MEMORY_SIZE then (e, some (.InvalidAddress p2))
  else
    ({ e with memory :=
        update (update (update e.memory p0 (value / 100 % 10))
          p1 (value / 10 % 10)) p2 (value % 10) }, none)

/-- The loop body of `Emulator::store_mem` (`for r in 0..=x`), with the
remaining iteration count made explicit for structural recursion:
each step checks `I + r` and either errors — with the writes so far
kept — or stores `reg[r]`. -/
def storeMemGo (e : Emulator) : Nat → Nat → Emulator × Option EmuError
  | 0, _ => (e, none)
  | count + 1, r =>
    let pos := e.reg_i + r
    if pos ≥ MEMORY_SIZE then (e, some (.InvalidAddress pos))
    else storeMemGo { e with memory := update e.memory pos (e.reg r) } count (r + 1)

/-- Embeds `Emulator::store_mem`: run the loop over `r in 0..=x`; on success
apply the legacy `reg_i` bump only when `MODERN_COMPATIBILITY` is
off. -/
def store_mem (e : Emulator) (x : Nat) : Emulator × Option EmuError :=
  match storeMemGo e (x + 1) 0 with
  | (e', none) =>
    (if MODERN_COMPATIBILITY then e' else { e' with reg_i := e'.reg_i + x + 1 }, none)
  | (e', some err) => (e', some err)

/-- The loop body of `Emulator::load_mem`, mirror of `storeMemGo`. -/
def loadMemGo (e : Emulator) : Nat → Nat → Emulator × Option EmuError
  | 0, _ => (e, none)
  | count + 1, r =>
    let pos := e.reg_i + r
    if pos ≥ MEMORY_SIZE then (e, some (.InvalidAddress pos))
    else loadMemGo { e with reg := update e.reg r (e.memory pos) } count (r + 1)

/-- Embeds `Emulator::load_mem`. -/
def load_mem (e : Emulator) (x : Nat) : Emulator × Option EmuError :=
  match loadMemGo e (x + 1) 0 with
  | (e', none) =>
    (if MODERN_COMPATIBILITY then e' else { e' with reg_i := e'.reg_i + x + 1 }, none)
  | (e', some err) => (e', some err)

end Emulator

/-- The inner column loop of `Emulator::display` (`for xline in 0..8`),
with the remaining count explicit.  The sprite bit is
`(sprite_byte & (0b10000000 >> xline)) > 0`, i.e. bit `7 - xline` of a
byte value; a set bit XORs the target cell `(x + xline, y + yline)`
through `Display.get`/`Display.set` (which panic past the 2048-cell
array), recording a collision in `reg[REG_F]`. -/
def Emulator.drawBits (x y yline sprite_byte : Nat) :
    Emulator → Nat → Nat → Option Emulator
  | e, _, 0 => some e
  | e, xline, k + 1 =>
    if sprite_byte / 2 ^ (7 - xline) % 2 = 1 then
      match e.display.get (x + xline) (y + yline) with
      | none => none
      | some true =>
        match e.display.set (x + xline) (y + yline) false with
        | none => none
        | some d =>
          Emulator.drawBits x y yline sprite_byte
            { e with display := d, reg := update e.reg REG_F 1 } (xline + 1) k
      | some false =>
        match e.display.set (x + xline) (y + yline) true with
        | none => none
        | some d =>
          Emulator.drawBits x y yline sprite_byte
            { e with display := d } (xline + 1) k
    else Emulator.drawBits x y yline sprite_byte e (xline + 1) k

/-- The row loop of `Emulator::display` (`for yline in 0..inmm`):
reads `memory[reg_i + yline]` (a Rust index, panicking past
`MEMORY_SIZE`) and draws its 8 bits. -/
def Emulator.drawRows (x y : Nat) : Emulator → Nat → Nat → Option Emulator
  | e, _, 0 => some e
  | e, yline, k + 1 =>
    if e.reg_i + yline ≥ MEMORY_SIZE then none
    else
      let sprite_byte := e.memory (e.reg_i + yline)
      match Emulator.drawBits x y yline sprite_byte e 0 8 with
      | none => none
      | some e' => Emulator.drawRows x y e' (yline + 1) k

/-- Embeds `Emulator::display`: the start corner is `reg[rx] % 64`,
`reg[ry] % 32` (computed before anything is written), `reg[REG_F]` is
cleared, then the `inmm` sprite rows are drawn.  `none` is the panic of
an out-of-bounds array index inside the loops. -/
def Emulator.displayOp (e : Emulator) (rx ry : Nat) (inmm : Nat) :
    Option Emulator :=
  let x := e.reg rx % DISPLAY_WIDTH
  let y := e.reg ry % DISPLAY_HEIGHT
  let e1 := { e with reg := update e.reg REG_F 0 }
  Emulator.drawRows x y e1 0 inmm

/- The loop of `Emulator::load_fonts` is omitted: `src/emulator/font.rs`
(the `FONTS` table) is absent from the sources, and no claim depends on
the initial memory contents. -/

/-- The loop of `Emulator::load_program`
(`for n in program.iter().enumerate()`): `memory[START_ADDR + idx] = byte`. -/
def loadLoop (m : Nat → Nat) (idx : Nat) : List Nat → (Nat → Nat)
  | [] => m
  | b :: bs => loadLoop (update m (START_ADDR + idx) b) (idx + 1) bs

/-- Embeds `Emulator::load_program`: rejects `program.len() ≥ MEMORY_SIZE -
START_ADDR` (note `≥`, not `>`) with `ProgramTooBig`, otherwise copies
the bytes to `START_ADDR..`. -/
def Emulator.load_program (e : Emulator) (program : List Nat) :
    Emulator × Option EmuError :=
  if program.length ≥ MEMORY_SIZE - START_ADDR then
    (e, some (.ProgramTooBig program.length))
  else ({ e with memory := loadLoop e.memory 0 program }, none)

/-- The two error sources that `Emulator::execute` can propagate
(`anyhow::Result` in the source). -/
inductive ExecError : Type
  | emu (x : EmuError)
  | stack (x : StackError)
  deriving DecidableEq, Repr

/-- The observable result of one `Emulator::execute` call: normal
completion, a propagated error (with the state as left by the failing
method), or a Rust panic inside the sprite loop. -/
inductive Outcome : Type
  | ok (e : Emulator)
  | err (e : Emulator) (x : ExecError)
  | panic

/-- Lift an `Emulator × Option StackError` method result. -/
def liftStack : Emulator × Option StackError → Outcome
  | (e, none) => .ok e
  | (e, some s) => .err e (.stack s)

/-- Lift an `Emulator × Option EmuError` method result. -/
def liftEmu : Emulator × Option EmuError → Outcome
  | (e, none) => .ok e
  | (e, some x) => .err e (.emu x)

/-- Embeds `Emulator::execute`: dispatch on the instruction, matching the
source arm for arm.  `r` is the byte the RNG yields for `Rand`. -/
def Emulator.execute (e : Emulator) (instr : Instruction) (r : Nat)
    (keys : Nat → Bool) : Outcome :=
  match instr with
  | .Cls => .ok e.clear_display
  | .Return => liftStack e.ret
  | .SetPC n => .ok (e.set_pc n)
  | .Call n => liftStack (e.call n)
  | .SeInmm x n => .ok (e.se_inmm x n)
  | .SneInmm x n => .ok (e.sne_inmm x n)
  | .SeReg x y => .ok (e.se_reg x y)
  | .SneReg x y => .ok (e.sne_reg x y)
  | .LoadInmm x n => .ok (e.load_inmm x n)
  | .Sum x n => .ok (e.sum x n)
  | .LoadI n => .ok (e.load_i n)
  | .Jump n => liftEmu (e.jump n)
  | .Rand x n => .ok (e.rand x n r)
  | .Display x y n =>
    match e.displayOp x y n with
    | some e' => .ok e'
    | none => .panic
  | .LoadReg x y => .ok (e.load_reg x y)
  | .Or x y => .ok (e.orOp x y)
  | .And x y => .ok (e.andOp x y)
  | .Xor x y => .ok (e.xorOp x y)
  | .Add x y => .ok (e.add x y)
  | .Sub x y => .ok (e.sub x y)
  | .SubRev x y => .ok (e.rev_sub x y)
  | .ShiftRight x y => .ok (e.right_shift x y)
  | .ShiftLeft x y => .ok (e.left_shift x y)
  | .Skip x => liftEmu (e.skip_key x keys)
  | .Snkip x => liftEmu (e.snkip_key x keys)
  | .GetDelay x => .ok (e.get_delay x)
  | .WaitKey x => liftEmu (e.wait_key x keys)
  | .LoadDelay x => .ok (e.load_delay x)
  | .LoadSound x => .ok (e.load_sound x)
  | .AddI x => .ok (e.add_to_index x)
  | .LoadFont x => liftEmu (e.load_font x)
  | .Bcd x => liftEmu (e.binary_dec x)
  | .StMem x => liftEmu (e.store_mem x)
  | .LdMem x => liftEmu (e.load_mem x)

/-! ## Decoder (src/decoder.rs)

The source masks with `0xF000`, `0xF00F`, `0xF0FF`, `0x0FFF`, `0x0F00`,
`0x00F0`, `0x00FF`, `0x000F` and shifts; on a 16-bit word these extract
nibble fields, written here with the equivalent `/` and `%`:
high nibble `w / 0x1000`, `x = w / 0x100 % 0x10`, `y = w / 0x10 % 0x10`,
`nn = w % 0x100`, `nnn = w % 0x1000`, low nibble `w % 0x10`. -/

/-- Embeds `decode` from `src/decoder.rs`: two-level dispatch, first on the
high nibble, then (for groups 0/8/E/F) on the low nibble or byte,
with the arms in source order. -/
def decode (instr : Nat) : Except DecodeError Instruction :=
  let opcode := instr / 0x1000
  let reg_x := instr / 0x100 % 0x10
  let reg_y := instr / 0x10 % 0x10
  let nn := instr % 0x100
  let nnn := instr % 0x1000
  if opcode = 0x0 then
    if instr = 0x00E0 then .ok .Cls
    else if instr = 0x00EE then .ok .Return
    else .error (.Unknown instr)
  else if opcode = 0x1 then .ok (.SetPC nnn)
  else if opcode = 0x2 then .ok (.Call nnn)
  else if opcode = 0x3 then .ok (.SeInmm reg_x nn)
  else if opcode = 0x4 then .ok (.SneInmm reg_x nn)
  else if opcode = 0x5 then .ok (.SeReg reg_x reg_y)
  else if opcode = 0x6 then .ok (.LoadInmm reg_x nn)
  else if opcode = 0x7 then .ok (.Sum reg_x nn)
  else if opcode = 0x8 then
    let low := instr % 0x10
    if low = 0x0 then .ok (.LoadReg reg_x reg_y)
    else if low = 0x1 then .ok (.Or reg_x reg_y)
    else if low = 0x2 then .ok (.And reg_x reg_y)
    else if low = 0x3 then .ok (.Xor reg_x reg_y)
    else if low = 0x4 then .ok (.Add reg_x reg_y)
    else if low = 0x5 then .ok (.Sub reg_x reg_y)
    else if low = 0x6 then .ok (.ShiftRight reg_x reg_y)
    else if low = 0x7 then .ok (.SubRev reg_x reg_y)
    else if low = 0xE then .ok (.ShiftLeft reg_x reg_y)
    else .error (.Unknown instr)
  else if opcode = 0x9 then .ok (.SneReg reg_x reg_y)
  else if opcode = 0xA then .ok (.LoadI nnn)
  else if opcode = 0xB then .ok (.Jump nnn)
  else if opcode = 0xC then .ok (.Rand reg_x nn)
  else if opcode = 0xD then .ok (.Display reg_x reg_y (instr % 0x10))
  else if opcode = 0xE then
    if nn = 0x9E then .ok (.Skip reg_x)
    else if nn = 0xA1 then .ok (.Snkip reg_x)
    else .error (.Unknown instr)
  else if opcode = 0xF then
    if nn = 0x07 then .ok (.GetDelay reg_x)
    else if nn = 0x0A then .ok (.WaitKey reg_x)
    else if nn = 0x15 then .ok (.LoadDelay reg_x)
    else if nn = 0x18 then .ok (.LoadSound reg_x)
    else if nn = 0x1E then .ok (.AddI reg_x)
    else if nn = 0x29 then .ok (.LoadFont reg_x)
    else if nn = 0x33 then .ok (.Bcd reg_x)
    else if nn = 0x55 then .ok (.StMem reg_x)
    else if nn = 0x65 then .ok (.LdMem reg_x)
    else .error (.Unknown instr)
  else .error (.Unknown instr)

/-! ## Frame scheduler (src/main.rs, src/frontend.rs) -/

/-- Embeds `TARGET_FPS` from `src/frontend.rs`. -/
def TARGET_FPS : Nat := 60

/-- The `cycles_per_frame` computation in `main`: integer division of
the configured cycles-per-second by `TARGET_FPS`, raised to 1 when the
quotient is below 1. -/
def cyclesPerFrame (cycles : Nat) : Nat :=
  let aux := cycles / TARGET_FPS
  if aux < 1 then 1 else aux

/-- Embeds `Emulator::decrease_timers`.  Modelled from the spec: the method is
called from `main` but its definition is absent from the sources; the
spec (§4.4 "Timer tick") decrements `delay` and `sound` once when
positive. -/
def Emulator.decrease_timers (e : Emulator) : Emulator :=
  { e with
    reg_delay := if 0 < e.reg_delay then e.reg_delay - 1 else e.reg_delay,
    reg_sound := if 0 < e.reg_sound then e.reg_sound - 1 else e.reg_sound }

/-- An error propagated out of `main`'s inner loop by one of its three
`?` operators. -/
inductive CycleError : Type
  | dec (x : DecodeError)
  | exec (x : ExecError)
  deriving DecidableEq, Repr

/-- Result of one iteration of `main`'s inner loop. -/
inductive CycleOutcome : Type
  | ok (e : Emulator)
  | err (e : Emulator) (x : CycleError)
  | panic

/-- One fetch–decode–execute cycle, as chained in `main`'s inner loop
(each `?` aborts the frame and propagates). -/
def cycleStep (e : Emulator) (r : Nat) (keys : Nat → Bool) : CycleOutcome :=
  match e.fetch with
  | (e1, .error x) => .err e1 (.exec (.emu x))
  | (e1, .ok w) =>
    match decode w with
    | .error dx => .err e1 (.dec dx)
    | .ok i =>
      match e1.execute i r keys with
      | .ok e2 => .ok e2
      | .err e2 x => .err e2 (.exec x)
      | .panic => .panic

/-- An entry of the observable per-frame event trace: the timer tick,
or one invocation of the fetch–decode–execute cycle. -/
inductive FrameEvent : Type
  | timerTick
  | exec
  deriving DecidableEq, Repr

/-- The inner `for _ in 0..cycles_per_frame` loop of `main`, recording
one `FrameEvent.exec` per invoked cycle; `r` supplies the RNG byte of
each cycle.  A failing cycle was still invoked, and ends the frame. -/
def runCyclesTr (r : Nat → Nat) (keys : Nat → Bool) :
    Emulator → Nat → Nat → List FrameEvent × Option Emulator
  | e, _, 0 => ([], some e)
  | e, k, n + 1 =>
    match cycleStep e (r k) keys with
    | .ok e' =>
      let rest := runCyclesTr r keys e' (k + 1) n
      (.exec :: rest.1, rest.2)
    | _ => ([.exec], none)

/-- One frame of `main`'s `while` loop: `decrease_timers` first, then
`cyclesPerFrame C` cycles. -/
def frame (C : Nat) (r : Nat → Nat) (keys : Nat → Bool) (e : Emulator) :
    List FrameEvent × Option Emulator :=
  let e0 := e.decrease_timers
  let rest := runCyclesTr r keys e0 0 (cyclesPerFrame C)
  (.timerTick :: rest.1, rest.2)

/-! ## Concrete states used by counterexamples and witnesses -/

/-- The reset state (`Emulator::default`, minus the font preload, on
which no claim depends). -/
def baseEmu : Emulator :=
  { memory := fun _ => 0, reg := fun _ => 0, reg_i := 0, reg_pc := START_ADDR,
    reg_delay := 0, reg_sound := 0, display := Display.new, stack := Stack.new }

/-- A state about to draw the sprite byte `0xC0` at the right edge:
`V0 = 63`, `V1 = 0`, `I = 0x300`, `memory[0x300] = 0xC0`. -/
def c1State : Emulator :=
  { baseEmu with
    memory := update (fun _ => 0) 0x300 0xC0,
    reg := fun i => if i = 0 then 63 else 0,
    reg_i := 0x300 }

/-- Like `c1State` but drawing at the bottom-right corner
(`V0 = 63`, `V1 = 31`). -/
def c1StatePanic : Emulator :=
  { c1State with reg := fun i => if i = 0 then 63 else if i = 1 then 31 else 0 }

/-- A state with `V15 = 5` and `V1 = 3`. -/
def c2State : Emulator :=
  { baseEmu with reg := fun i => if i = 15 then 5 else if i = 1 then 3 else 0 }

/-- A state with `V15 = 200` and `V1 = 100`. -/
def c2WitState : Emulator :=
  { baseEmu with reg := fun i => if i = 15 then 200 else if i = 1 then 100 else 0 }

/-- A state with `V0 = 255`. -/
def c3State : Emulator :=
  { baseEmu with reg := fun i => if i = 0 then 255 else 0 }

/-- A state with `V0 = 1`. -/
def c3StateB : Emulator :=
  { baseEmu with reg := fun i => if i = 0 then 1 else 0 }

/-- A state whose call stack is full (`stack_pointer = 16`). -/
def c9State : Emulator :=
  { baseEmu with stack := ⟨fun _ => 0, 16⟩ }

/-! ## C1 — sprite drawing does not clip -/

/-- C1: the claim says sprite bits past the right or bottom edge are
dropped and nothing outside the 64×32 grid is touched.  The code has no
such clipping: drawing the byte `0xC0` at `(63, 0)` writes linear index
`64 = transform_cords 0 1`, turning on the framebuffer cell `(0, 1)` of
the next row — a cell outside the sprite's clipped rectangle (row 0) —
and the same draw at `(63, 31)` indexes cell `2048`, past the array
(a Rust panic, `none` here). -/
theorem display_no_clip_eval :
    (c1State.displayOp 0 1 1).map (fun e => e.display.arr (transform_cords 0 1))
      = some true ∧
    c1State.display.arr (transform_cords 0 1) = false ∧
    c1StatePanic.displayOp 0 1 1 = none :=
  ⟨rfl, rfl, rfl⟩

/-! ## C2 — VF write ordering -/

/-- C2 (counterexample): with `V15 = 5`, `V1 = 3`, the claim says
`Sub(15, 1)` ends with `V15` equal to the borrow flag
(`1`, since `5 > 3`); the code writes the flag first and the wrapped
difference `2` second, so `V15 = 2 ≠ 1`. -/
theorem vf_order_counterexample :
    (c2State.sub 15 1).reg 15 = 2 ∧
    ¬ (c2State.sub 15 1).reg 15 = (if c2State.reg 1 < c2State.reg 15 then 1 else 0) :=
  ⟨rfl, by decide⟩

/-- C2 (amended): only `Add` writes VF after the destination register,
so `Add` with `x = 15` leaves the carry in `V15`; `Sub`, `SubRev`,
`ShiftRight` and `ShiftLeft` write VF first and the arithmetic result
second, so with `x = 15` the result overwrites the flag. -/
theorem vf_order_amended (e : Emulator) (y : Nat) :
    ((e.add 15 y).reg 15 = (if 256 ≤ e.reg 15 + e.reg y then 1 else 0)) ∧
    ((e.sub 15 y).reg 15 = (e.reg 15 + 256 - e.reg y) % 256) ∧
    ((e.rev_sub 15 y).reg 15 = (e.reg y + 256 - e.reg 15) % 256) ∧
    (y ≠ 15 → (e.right_shift 15 y).reg 15 = e.reg y / 2) ∧
    (y ≠ 15 → (e.left_shift 15 y).reg 15 = e.reg y * 2 % 256) := by
  refine ⟨?_, ?_, ?_, ?_, ?_⟩
  · simp [Emulator.add, REG_F]
  · simp [Emulator.sub, REG_F]
  · simp [Emulator.rev_sub, REG_F]
  · intro hy; simp [Emulator.right_shift, REG_F, update, hy]
  · intro hy; simp [Emulator.left_shift, REG_F, update, hy]

/-- Witness for `vf_order_amended` at `V15 = 200`, `V1 = 100`. -/
theorem vf_order_amended_witness :
    (c2WitState.add 15 1).reg 15 = 1 ∧
    (c2WitState.sub 15 1).reg 15 = 100 ∧
    (c2WitState.rev_sub 15 1).reg 15 = 156 ∧
    (c2WitState.right_shift 15 1).reg 15 = 50 ∧
    (c2WitState.left_shift 15 1).reg 15 = 200 := by
  have h := vf_order_amended c2WitState 1
  refine ⟨?_, ?_, ?_, ?_, ?_⟩
  · rw [h.1]; decide
  · rw [h.2.1]; decide
  · rw [h.2.2.1]; decide
  · rw [h.2.2.2.1 (by decide)]; decide
  · rw [h.2.2.2.2 (by decide)]; decide

/-! ## C3 — Jump -/

/-- C3 (counterexample): the claim says `Jump(n)` always succeeds and
sets `pc` to `(V0 + n) mod 4096`.  With `V0 = 255`, `n = 4095` the code
errors with `InvalidAddress(4350)` at execute time; and with `V0 = 1`,
`n = 4095` it succeeds but sets `pc = 4096`, not `(1 + 4095) % 4096 = 0`. -/
theorem jump_counterexample :
    c3State.jump 4095 = (c3State, some (.InvalidAddress 4350)) ∧
    (c3StateB.jump 4095).1.reg_pc = 4096 ∧
    ¬ (c3StateB.jump 4095).1.reg_pc = (c3StateB.reg 0 + 4095) % 4096 :=
  ⟨rfl, rfl, by decide⟩

/-- C3 (amended): `Jump(n)` sets `pc := V0 + n` with no modulo whenever
`V0 + n ≤ 4096` (so `pc = 4096` is possible, caught only by a later
fetch), and fails at execute time with `InvalidAddress(V0 + n)` whenever
`V0 + n > 4096`. -/
theorem jump_spec (e : Emulator) (n : Nat) :
    (e.reg 0 + n ≤ MEMORY_SIZE → e.jump n = ({ e with reg_pc := e.reg 0 + n }, none)) ∧
    (MEMORY_SIZE < e.reg 0 + n → e.jump n = (e, some (.InvalidAddress (e.reg 0 + n)))) := by
  constructor
  · intro h; simp only [Emulator.jump]; rw [if_neg (by omega)]
  · intro h; simp only [Emulator.jump]; rw [if_pos (by omega)]

/-- Witness for `jump_spec` on both branches. -/
theorem jump_spec_witness :
    c3StateB.jump 10 = ({ c3StateB with reg_pc := 11 }, none) ∧
    c3State.jump 4095 = (c3State, some (.InvalidAddress 4350)) := by
  constructor
  · exact (jump_spec c3StateB 10).1 (by decide)
  · exact (jump_spec c3State 4095).2 (by decide)

/-! ## C5 — load_program -/

/-- Characterises the copy loop of `Emulator::load_program`. -/
theorem loadLoop_eq (p : List Nat) : ∀ (idx : Nat) (m : Nat → Nat) (a : Nat),
    loadLoop m idx p a =
      if START_ADDR + idx ≤ a ∧ a < START_ADDR + idx + p.length
      then p.getD (a - START_ADDR - idx) 0 else m a := by
  induction p with
  | nil =>
    intro idx m a
    simp only [loadLoop, List.length_nil, Nat.add_zero]
    rw [if_neg (by omega)]
  | cons b bs ih =>
    intro idx m a
    simp only [loadLoop, List.length_cons]
    rw [ih]
    rcases Nat.lt_trichotomy a (START_ADDR + idx) with hlt | heq | hgt
    · rw [if_neg (by omega), if_neg (by omega), update_other _ _ _ _ (by omega)]
    · subst heq
      rw [if_neg (by omega), if_pos (by omega), update_same]
      have h0 : START_ADDR + idx - START_ADDR - idx = 0 := by omega
      rw [h0, List.getD_cons_zero]
    · by_cases hub : a < START_ADDR + idx + (bs.length + 1)
      · rw [if_pos (by omega), if_pos (by omega)]
        have h2 : a - START_ADDR - idx = (a - START_ADDR - (idx + 1)) + 1 := by omega
        rw [h2, List.getD_cons_succ]
      · rw [if_neg (by omega), if_neg (by omega), update_other _ _ _ _ (by omega)]

/-- C5 (counterexample): the claim says a program of length at most
3584 loads successfully; the source checks `len >= 3584`, so a
3584-byte program is rejected with `ProgramTooBig`. -/
theorem load_program_counterexample :
    baseEmu.load_program (List.replicate 3584 0) =
      (baseEmu, some (.ProgramTooBig 3584)) := by
  simp only [Emulator.load_program, List.length_replicate]
  rw [if_pos (by norm_num [MEMORY_SIZE, START_ADDR])]

/-- C5 (amended): `load_program(p)` succeeds and copies `p` to
`0x200..` exactly when `p` is at most 3583 bytes, and fails with
`ProgramTooBig(len)` exactly when `len ≥ 3584`. -/
theorem load_program_spec (e : Emulator) (p : List Nat) (a : Nat) :
    (p.length < MEMORY_SIZE - START_ADDR →
       (e.load_program p).2 = none ∧
       (e.load_program p).1.memory a =
         (if START_ADDR ≤ a ∧ a < START_ADDR + p.length
          then p.getD (a - START_ADDR) 0 else e.memory a)) ∧
    (MEMORY_SIZE - START_ADDR ≤ p.length →
       e.load_program p = (e, some (.ProgramTooBig p.length))) := by
  constructor
  · intro h
    constructor
    · simp only [Emulator.load_program]; rw [if_neg (by omega)]
    · simp only [Emulator.load_program]; rw [if_neg (by omega)]
      show loadLoop e.memory 0 p a = _
      rw [loadLoop_eq]
      rw [Nat.add_zero, Nat.sub_zero]
  · intro h; simp only [Emulator.load_program]; rw [if_pos (by omega)]

/-- Witness for `load_program_spec`: loading `[1, 2, 3]` puts `2` at
address `0x201`. -/
theorem load_program_spec_witness :
    ([1, 2, 3] : List Nat).length < MEMORY_SIZE - START_ADDR ∧
    (baseEmu.load_program [1, 2, 3]).2 = none ∧
    (baseEmu.load_program [1, 2, 3]).1.memory 513 = 2 := by
  have h := (load_program_spec baseEmu [1, 2, 3] 513).1 (by decide)
  exact ⟨by decide, h.1, by rw [h.2]; decide⟩

/-! ## C9 — Call is atomic on stack overflow -/

/-- C9: `Call(n)` pushes the current `pc` before assigning `pc := n`;
with a full stack the push fails with `Overflow` and the state —
`pc`, stack slots and stack pointer included — is returned unchanged,
while with a non-full stack the return address is stored and only then
`pc` is set to `n`. -/
theorem call_atomic (e : Emulator) (addr : Nat) :
    (STACK_SIZE ≤ e.stack.sp → e.call addr = (e, some .Overflow)) ∧
    (e.stack.sp < STACK_SIZE →
       e.call addr =
         ({ e with stack := ⟨update e.stack.arr e.stack.sp e.reg_pc, e.stack.sp + 1⟩,
                   reg_pc := addr }, none)) := by
  constructor
  · intro h
    simp only [Emulator.call, Stack.push]
    rw [if_pos (by omega)]
  · intro h
    simp only [Emulator.call, Stack.push]
    rw [if_neg (by omega)]

/-- Witness for `call_atomic`: a full stack rejects `Call`, the reset
state accepts it. -/
theorem call_atomic_witness :
    c9State.call 0x300 = (c9State, some .Overflow) ∧
    baseEmu.call 0x300 =
      ({ baseEmu with stack := ⟨update baseEmu.stack.arr 0 0x200, 1⟩,
                      reg_pc := 0x300 }, none) := by
  constructor
  · exact (call_atomic c9State 0x300).1 (by decide)
  · exact (call_atomic baseEmu 0x300).2 (by decide)

/-! ## C6 — decoder table -/

/-- C6: `decode` is a pure total function on 16-bit words; on every word
matching an entry of the opcode table it returns the listed variant with
the `x = w / 256 % 16`, `y = w / 16 % 16`, `nn = w % 256`,
`nnn = w % 4096`, `n = w % 16` fields of the word, and on every word
whose low-nibble subpattern is unlisted within groups 0/8/E/F it
returns `Unknown(w)` (every high nibble 0–F heads some table row, so no
word is unknown by its high nibble alone). -/
theorem decode_table (w : Nat) :
    (w = 0x00E0 → decode w = .ok .Cls) ∧
    (w = 0x00EE → decode w = .ok .Return) ∧
    (w / 4096 = 0x1 → decode w = .ok (.SetPC (w % 4096))) ∧
    (w / 4096 = 0x2 → decode w = .ok (.Call (w % 4096))) ∧
    (w / 4096 = 0x3 → decode w = .ok (.SeInmm (w / 256 % 16) (w % 256))) ∧
    (w / 4096 = 0x4 → decode w = .ok (.SneInmm (w / 256 % 16) (w % 256))) ∧
    (w / 4096 = 0x5 ∧ w % 16 = 0x0 → decode w = .ok (.SeReg (w / 256 % 16) (w / 16 % 16))) ∧
    (w / 4096 = 0x6 → decode w = .ok (.LoadInmm (w / 256 % 16) (w % 256))) ∧
    (w / 4096 = 0x7 → decode w = .ok (.Sum (w / 256 % 16) (w % 256))) ∧
    (w / 4096 = 0x8 ∧ w % 16 = 0x0 → decode w = .ok (.LoadReg (w / 256 % 16) (w / 16 % 16))) ∧
    (w / 4096 = 0x8 ∧ w % 16 = 0x1 → decode w = .ok (.Or (w / 256 % 16) (w / 16 % 16))) ∧
    (w / 4096 = 0x8 ∧ w % 16 = 0x2 → decode w = .ok (.And (w / 256 % 16) (w / 16 % 16))) ∧
    (w / 4096 = 0x8 ∧ w % 16 = 0x3 → decode w = .ok (.Xor (w / 256 % 16) (w / 16 % 16))) ∧
    (w / 4096 = 0x8 ∧ w % 16 = 0x4 → decode w = .ok (.Add (w / 256 % 16) (w / 16 % 16))) ∧
    (w / 4096 = 0x8 ∧ w % 16 = 0x5 → decode w = .ok (.Sub (w / 256 % 16) (w / 16 % 16))) ∧
    (w / 4096 = 0x8 ∧ w % 16 = 0x6 → decode w = .ok (.ShiftRight (w / 256 % 16) (w / 16 % 16))) ∧
    (w / 4096 = 0x8 ∧ w % 16 = 0x7 → decode w = .ok (.SubRev (w / 256 % 16) (w / 16 % 16))) ∧
    (w / 4096 = 0x8 ∧ w % 16 = 0xE → decode w = .ok (.ShiftLeft (w / 256 % 16) (w / 16 % 16))) ∧
    (w / 4096 = 0x9 ∧ w % 16 = 0x0 → decode w = .ok (.SneReg (w / 256 % 16) (w / 16 % 16))) ∧
    (w / 4096 = 0xA → decode w = .ok (.LoadI (w % 4096))) ∧
    (w / 4096 = 0xB → decode w = .ok (.Jump (w % 4096))) ∧
    (w / 4096 = 0xC → decode w = .ok (.Rand (w / 256 % 16) (w % 256))) ∧
    (w / 4096 = 0xD → decode w = .ok (.Display (w / 256 % 16) (w / 16 % 16) (w % 16))) ∧
    (w / 4096 = 0xE ∧ w % 256 = 0x9E → decode w = .ok (.Skip (w / 256 % 16))) ∧
    (w / 4096 = 0xE ∧ w % 256 = 0xA1 → decode w = .ok (.Snkip (w / 256 % 16))) ∧
    (w / 4096 = 0xF ∧ w % 256 = 0x07 → decode w = .ok (.GetDelay (w / 256 % 16))) ∧
    (w / 4096 = 0xF ∧ w % 256 = 0x0A → decode w = .ok (.WaitKey (w / 256 % 16))) ∧
    (w / 4096 = 0xF ∧ w % 256 = 0x15 → decode w = .ok (.LoadDelay (w / 256 % 16))) ∧
    (w / 4096 = 0xF ∧ w % 256 = 0x18 → decode w = .ok (.LoadSound (w / 256 % 16))) ∧
    (w / 4096 = 0xF ∧ w % 256 = 0x1E → decode w = .ok (.AddI (w / 256 % 16))) ∧
    (w / 4096 = 0xF ∧ w % 256 = 0x29 → decode w = .ok (.LoadFont (w / 256 % 16))) ∧
    (w / 4096 = 0xF ∧ w % 256 = 0x33 → decode w = .ok (.Bcd (w / 256 % 16))) ∧
    (w / 4096 = 0xF ∧ w % 256 = 0x55 → decode w = .ok (.StMem (w / 256 % 16))) ∧
    (w / 4096 = 0xF ∧ w % 256 = 0x65 → decode w = .ok (.LdMem (w / 256 % 16))) ∧
    (w / 4096 = 0x0 ∧ w ≠ 0x00E0 ∧ w ≠ 0x00EE → decode w = .error (.Unknown w)) ∧
    (w / 4096 = 0x8 ∧ 8 ≤ w % 16 ∧ w % 16 ≠ 0xE → decode w = .error (.Unknown w)) ∧
    (w / 4096 = 0xE ∧ w % 256 ≠ 0x9E ∧ w % 256 ≠ 0xA1 → decode w = .error (.Unknown w)) ∧
    (w / 4096 = 0xF ∧ w % 256 ≠ 0x07 ∧ w % 256 ≠ 0x0A ∧ w % 256 ≠ 0x15 ∧
       w % 256 ≠ 0x18 ∧ w % 256 ≠ 0x1E ∧ w % 256 ≠ 0x29 ∧ w % 256 ≠ 0x33 ∧
       w % 256 ≠ 0x55 ∧ w % 256 ≠ 0x65 → decode w = .error (.Unknown w)) := by
  refine ⟨?_, ?_, ?_, ?_, ?_, ?_, ?_, ?_, ?_, ?_, ?_, ?_, ?_, ?_, ?_, ?_, ?_, ?_,
          ?_, ?_, ?_, ?_, ?_, ?_, ?_, ?_, ?_, ?_, ?_, ?_, ?_, ?_, ?_, ?_, ?_, ?_,
          ?_, ?_⟩
  · intro h; subst h; rfl
  · intro h; subst h; rfl
  · intro h; simp [decode, h]
  · intro h; simp [decode, h]
  · intro h; simp [decode, h]
  · intro h; simp [decode, h]
  · intro h; simp [decode, h.1]
  · intro h; simp [decode, h]
  · intro h; simp [decode, h]
  · intro h; simp [decode, h.1, h.2]
  · intro h; simp [decode, h.1, h.2]
  · intro h; simp [decode, h.1, h.2]
  · intro h; simp [decode, h.1, h.2]
  · intro h; simp [decode, h.1, h.2]
  · intro h; simp [decode, h.1, h.2]
  · intro h; simp [decode, h.1, h.2]
  · intro h; simp [decode, h.1, h.2]
  · intro h; simp [decode, h.1, h.2]
  · intro h; simp [decode, h.1]
  · intro h; simp [decode, h]
  · intro h; simp [decode, h]
  · intro h; simp [decode, h]
  · intro h; simp [decode, h]
  · intro h; simp [decode, h.1, h.2]
  · intro h; simp [decode, h.1, h.2]
  · intro h; simp [decode, h.1, h.2]
  · intro h; simp [decode, h.1, h.2]
  · intro h; simp [decode, h.1, h.2]
  · intro h; simp [decode, h.1, h.2]
  · intro h; simp [decode, h.1, h.2]
  · intro h; simp [decode, h.1, h.2]
  · intro h; simp [decode, h.1, h.2]
  · intro h; simp [decode, h.1, h.2]
  · intro h; simp [decode, h.1, h.2]
  · intro h; simp [decode, h.1, h.2.1, h.2.2]
  · intro h
    obtain ⟨h1, h2, h3⟩ := h
    have e0 : ¬ w % 16 = 0 := by omega
    have e1 : ¬ w % 16 = 1 := by omega
    have e2 : ¬ w % 16 = 2 := by omega
    have e3 : ¬ w % 16 = 3 := by omega
    have e4 : ¬ w % 16 = 4 := by omega
    have e5 : ¬ w % 16 = 5 := by omega
    have e6 : ¬ w % 16 = 6 := by omega
    have e7 : ¬ w % 16 = 7 := by omega
    simp [decode, h1, e0, e1, e2, e3, e4, e5, e6, e7, h3]
  · intro h; simp [decode, h.1, h.2.1, h.2.2]
  · intro h
    obtain ⟨h1, h2, h3, h4, h5, h6, h7, h8, h9, h10⟩ := h
    simp [decode, h1, h2, h3, h4, h5, h6, h7, h8, h9, h10]

/-- Witness for `decode_table`: two table rows, `00E0` and `8AB4`. -/
theorem decode_table_witness :
    decode 0x00E0 = .ok .Cls ∧ decode 0x8AB4 = .ok (.Add 10 11) := by
  constructor
  · exact (decode_table 0x00E0).1 rfl
  · exact (decode_table 0x8AB4).2.2.2.2.2.2.2.2.2.2.2.2.2.1 (by decide)

/-! ## C7 — stack LIFO discipline -/

/-- Extensionality for `Stack`. -/
@[ext] theorem stackExt {s t : Stack} (h1 : s.arr = t.arr) (h2 : s.sp = t.sp) :
    s = t := by
  cases s; cases t; cases h1; cases h2; rfl

/-- Characterises a run of successful pushes: starting from pointer
`sp` with `sp + vs.length ≤ 16`, all pushes succeed, the values land in
slots `sp, sp+1, …` in order, and the pointer ends at `sp + vs.length`. -/
theorem pushAll_ok (vs : List Nat) : ∀ (arr : Nat → Nat) (sp : Nat),
    sp + vs.length ≤ STACK_SIZE →
    Stack.pushAll ⟨arr, sp⟩ vs =
      .ok ⟨fun i => if sp ≤ i ∧ i < sp + vs.length then vs.getD (i - sp) 0 else arr i,
           sp + vs.length⟩ := by
  induction vs with
  | nil =>
    intro arr sp h
    simp only [Stack.pushAll, List.length_nil, Nat.add_zero]
    refine congrArg Except.ok (stackExt ?_ rfl)
    funext i
    dsimp only
    rw [if_neg (by omega)]
  | cons v vs ih =>
    intro arr sp h
    simp only [List.length_cons, STACK_SIZE] at h
    simp only [Stack.pushAll, Stack.push, STACK_SIZE, List.length_cons]
    rw [if_neg (by omega)]
    show Stack.pushAll ⟨update arr sp v, sp + 1⟩ vs = _
    rw [ih (update arr sp v) (sp + 1) (by simp only [STACK_SIZE]; omega)]
    refine congrArg Except.ok (stackExt ?_ (by show sp + 1 + vs.length = sp + (vs.length + 1); omega))
    funext i
    dsimp only
    by_cases hc : sp + 1 ≤ i ∧ i < sp + 1 + vs.length
    · rw [if_pos hc, if_pos (by omega)]
      have hidx : i - sp = (i - (sp + 1)) + 1 := by omega
      rw [hidx, List.getD_cons_succ]
    · rw [if_neg hc]
      by_cases hi : i = sp
      · rw [hi, update_same, if_pos (by omega)]
        have h0 : sp - sp = 0 := by omega
        rw [h0, List.getD_cons_zero]
      · rw [update_other _ _ _ _ hi, if_neg (by omega)]

/-- Characterises a run of successful pops: with `n ≤ sp`, `n` pops
succeed, returning the topmost `n` slots from the top down and leaving
the slots themselves in place with the pointer at `sp - n`. -/
theorem popN_ok (n : Nat) : ∀ (arr : Nat → Nat) (sp : Nat), n ≤ sp →
    Stack.popN ⟨arr, sp⟩ n =
      .ok ((List.range n).map (fun j => arr (sp - 1 - j)), ⟨arr, sp - n⟩) := by
  induction n with
  | zero =>
    intro arr sp _
    simp [Stack.popN]
  | succ n ih =>
    intro arr sp h
    simp only [Stack.popN, Stack.pop]
    rw [if_neg (by omega)]
    dsimp only
    rw [ih arr (sp - 1) (by omega)]
    dsimp only
    refine congrArg Except.ok
      (Prod.ext ?_ (stackExt rfl (by show sp - 1 - n = sp - (n + 1); omega)))
    show arr (sp - 1) :: (List.range n).map (fun j => arr (sp - 1 - 1 - j)) = _
    rw [List.range_succ_eq_map, List.map_cons, List.map_map]
    refine congrArg₂ List.cons (by rw [Nat.sub_zero]) ?_
    refine congrArg (fun f => List.map f (List.range n)) ?_
    funext j
    show arr (sp - 1 - 1 - j) = arr (sp - 1 - (j + 1))
    congr 1
    omega

/-- The stack state after 16 pushes of `vs` onto the empty stack. -/
def filledStack (vs : List Nat) : Stack :=
  ⟨fun i => if i < vs.length then vs.getD i 0 else 0, vs.length⟩

/-- C7: from the empty stack, pushing 16 values succeeds; a 17th push
overflows; 16 pops then return exactly the pushed values in reverse
push order, emptying the stack; and a 17th pop underflows. -/
theorem stack_lifo (vs : List Nat) (h : vs.length = 16) :
    Stack.new.pushAll vs = .ok (filledStack vs) ∧
    (filledStack vs).push 0 = .error .Overflow ∧
    (filledStack vs).popN 16 = .ok (vs.reverse, ⟨(filledStack vs).arr, 0⟩) ∧
    (⟨(filledStack vs).arr, 0⟩ : Stack).pop = .error .Underflow := by
  refine ⟨?_, ?_, ?_, ?_⟩
  · show Stack.pushAll ⟨fun _ => 0, 0⟩ vs = _
    rw [pushAll_ok vs (fun _ => 0) 0 (by simp only [STACK_SIZE]; omega)]
    refine congrArg Except.ok
      (stackExt ?_ (by show 0 + vs.length = vs.length; omega))
    funext i
    dsimp only [filledStack]
    by_cases hi : i < vs.length
    · rw [if_pos (by omega), if_pos hi, Nat.sub_zero]
    · rw [if_neg (by omega), if_neg hi]
  · simp [filledStack, Stack.push, STACK_SIZE, h]
  · show Stack.popN ⟨(filledStack vs).arr, vs.length⟩ 16 = _
    rw [popN_ok 16 (filledStack vs).arr vs.length (by omega)]
    refine congrArg Except.ok
      (Prod.ext ?_ (stackExt rfl (by show vs.length - 16 = 0; omega)))
    show (List.range 16).map (fun j => (filledStack vs).arr (vs.length - 1 - j))
        = vs.reverse
    refine List.ext_getElem (by simp [h]) ?_
    intro n h1 h2
    rw [List.getElem_map, List.getElem_range, List.getElem_reverse]
    have hn : n < 16 := by simpa using h1
    show (if vs.length - 1 - n < vs.length then vs.getD (vs.length - 1 - n) 0 else 0) = _
    rw [if_pos (by omega), List.getD_eq_getElem _ _ (by omega)]
  · simp [Stack.pop]

/-- Witness for `stack_lifo` on the list `[0, 1, …, 15]`. -/
theorem stack_lifo_witness :
    (List.range 16).length = 16 ∧
    (Stack.new.pushAll (List.range 16) = .ok (filledStack (List.range 16)) ∧
     (filledStack (List.range 16)).push 0 = .error .Overflow ∧
     (filledStack (List.range 16)).popN 16 =
       .ok ((List.range 16).reverse, ⟨(filledStack (List.range 16)).arr, 0⟩) ∧
     (⟨(filledStack (List.range 16)).arr, 0⟩ : Stack).pop = .error .Underflow) :=
  ⟨by decide, stack_lifo (List.range 16) (by decide)⟩

/-! ## C10 — StoreMem / LoadMem are not atomic on failure -/

/-- Extensionality for `Emulator`. -/
@[ext] theorem emulatorExt {s t : Emulator}
    (h1 : s.memory = t.memory) (h2 : s.reg = t.reg) (h3 : s.reg_i = t.reg_i)
    (h4 : s.reg_pc = t.reg_pc) (h5 : s.reg_delay = t.reg_delay)
    (h6 : s.reg_sound = t.reg_sound) (h7 : s.display = t.display)
    (h8 : s.stack = t.stack) : s = t := by
  cases s; cases t
  cases h1; cases h2; cases h3; cases h4; cases h5; cases h6; cases h7; cases h8
  rfl

/-- Characterises a failing run of the `store_mem` loop: starting at
index `r` with the out-of-range boundary `MEMORY_SIZE - reg_i` inside
the remaining iterations, the loop stores `reg[r..]` into
`memory[reg_i + r..4095]`, then stops with `InvalidAddress` at the
first out-of-range position, leaving `reg_i` and the registers
untouched. -/
theorem storeMemGo_fail (c : Nat) : ∀ (e : Emulator) (r : Nat),
    r ≤ MEMORY_SIZE - e.reg_i → MEMORY_SIZE - e.reg_i < r + c →
    Emulator.storeMemGo e c r =
      ({ e with memory := fun a =>
           if e.reg_i + r ≤ a ∧ a < MEMORY_SIZE then e.reg (a - e.reg_i) else e.memory a },
       some (.InvalidAddress (e.reg_i + (MEMORY_SIZE - e.reg_i)))) := by
  induction c with
  | zero =>
    intro e r h1 h2
    exact absurd h1 (by omega)
  | succ c ih =>
    intro e r h1 h2
    simp only [Emulator.storeMemGo]
    by_cases hp : e.reg_i + r ≥ MEMORY_SIZE
    · rw [if_pos hp]
      refine Prod.ext ?_ ?_
      · show e = _
        refine emulatorExt ?_ rfl rfl rfl rfl rfl rfl rfl
        funext a
        dsimp only
        rw [if_neg (by omega)]
      · show some (EmuError.InvalidAddress (e.reg_i + r)) = _
        have hr : e.reg_i + r = e.reg_i + (MEMORY_SIZE - e.reg_i) := by omega
        rw [hr]
    · rw [if_neg hp]
      rw [ih _ (r + 1) (by dsimp only; omega) (by dsimp only; omega)]
      refine Prod.ext ?_ rfl
      refine emulatorExt ?_ rfl rfl rfl rfl rfl rfl rfl
      funext a
      dsimp only
      by_cases ha1 : e.reg_i + (r + 1) ≤ a ∧ a < MEMORY_SIZE
      · rw [if_pos ha1, if_pos (by omega)]
      · rw [if_neg ha1]
        by_cases ha2 : a = e.reg_i + r
        · rw [ha2, update_same, if_pos (by omega)]
          congr 1
          omega
        · rw [update_other _ _ _ _ ha2, if_neg (by omega)]

/-- Characterises a failing run of the `load_mem` loop, mirror of
`storeMemGo_fail`: registers `r..` are loaded from
`memory[reg_i + r..4095]` before the loop stops with `InvalidAddress`,
leaving `reg_i` and the memory untouched. -/
theorem loadMemGo_fail (c : Nat) : ∀ (e : Emulator) (r : Nat),
    r ≤ MEMORY_SIZE - e.reg_i → MEMORY_SIZE - e.reg_i < r + c →
    Emulator.loadMemGo e c r =
      ({ e with reg := fun j =>
           if r ≤ j ∧ j < MEMORY_SIZE - e.reg_i then e.memory (e.reg_i + j) else e.reg j },
       some (.InvalidAddress (e.reg_i + (MEMORY_SIZE - e.reg_i)))) := by
  induction c with
  | zero =>
    intro e r h1 h2
    exact absurd h1 (by omega)
  | succ c ih =>
    intro e r h1 h2
    simp only [Emulator.loadMemGo]
    by_cases hp : e.reg_i + r ≥ MEMORY_SIZE
    · rw [if_pos hp]
      refine Prod.ext ?_ ?_
      · show e = _
        refine emulatorExt rfl ?_ rfl rfl rfl rfl rfl rfl
        funext j
        dsimp only
        rw [if_neg (by omega)]
      · show some (EmuError.InvalidAddress (e.reg_i + r)) = _
        have hr : e.reg_i + r = e.reg_i + (MEMORY_SIZE - e.reg_i) := by omega
        rw [hr]
    · rw [if_neg hp]
      rw [ih _ (r + 1) (by dsimp only; omega) (by dsimp only; omega)]
      refine Prod.ext ?_ rfl
      refine emulatorExt rfl ?_ rfl rfl rfl rfl rfl rfl
      funext j
      dsimp only
      by_cases hj1 : r + 1 ≤ j ∧ j < MEMORY_SIZE - e.reg_i
      · rw [if_pos hj1, if_pos (by omega)]
      · rw [if_neg hj1]
        by_cases hj2 : j = r
        · rw [hj2, update_same, if_pos (by omega)]
        · rw [update_other _ _ _ _ hj2, if_neg (by omega)]

/-- C10: when `I + x ≥ 4096`, `StoreMem(x)` and `LoadMem(x)` fail with
`InvalidAddress(I + r₀)` at the smallest out-of-range offset
`r₀ = 4096 - I`, but the copies below `r₀` have already been performed —
`memory[I + j] = V[j]` (respectively `V[j] = memory[I + j]`) for every
`j < r₀` — and the failing call leaves `I` itself (and, for `StoreMem`,
the registers; for `LoadMem`, the memory) unchanged. -/
theorem mem_ops_partial (e : Emulator) (x : Nat) (h : MEMORY_SIZE ≤ e.reg_i + x) :
    ((e.store_mem x).2 = some (.InvalidAddress (e.reg_i + (MEMORY_SIZE - e.reg_i)))) ∧
    (∀ j, j < MEMORY_SIZE - e.reg_i → (e.store_mem x).1.memory (e.reg_i + j) = e.reg j) ∧
    ((e.store_mem x).1.reg_i = e.reg_i) ∧
    ((e.store_mem x).1.reg = e.reg) ∧
    ((e.load_mem x).2 = some (.InvalidAddress (e.reg_i + (MEMORY_SIZE - e.reg_i)))) ∧
    (∀ j, j < MEMORY_SIZE - e.reg_i → (e.load_mem x).1.reg j = e.memory (e.reg_i + j)) ∧
    ((e.load_mem x).1.reg_i = e.reg_i) ∧
    ((e.load_mem x).1.memory = e.memory) := by
  have hs : e.store_mem x =
      ({ e with memory := fun a =>
           if e.reg_i + 0 ≤ a ∧ a < MEMORY_SIZE then e.reg (a - e.reg_i) else e.memory a },
       some (.InvalidAddress (e.reg_i + (MEMORY_SIZE - e.reg_i)))) := by
    simp only [Emulator.store_mem]
    rw [storeMemGo_fail (x + 1) e 0 (by omega) (by omega)]
  have hl : e.load_mem x =
      ({ e with reg := fun j =>
           if 0 ≤ j ∧ j < MEMORY_SIZE - e.reg_i then e.memory (e.reg_i + j) else e.reg j },
       some (.InvalidAddress (e.reg_i + (MEMORY_SIZE - e.reg_i)))) := by
    simp only [Emulator.load_mem]
    rw [loadMemGo_fail (x + 1) e 0 (by omega) (by omega)]
  rw [hs, hl]
  refine ⟨rfl, ?_, rfl, rfl, rfl, ?_, rfl, rfl⟩
  · intro j hj
    dsimp only
    rw [if_pos (by omega)]
    congr 1
    omega
  · intro j hj
    dsimp only
    rw [if_pos (by omega)]

/-- A state with `I = 4094`, `V[i] = i + 10`, all memory bytes `7`. -/
def c10State : Emulator :=
  { baseEmu with memory := fun _ => 7, reg := fun i => i + 10, reg_i := 4094 }

/-- Witness for `mem_ops_partial` at `I = 4094`, `x = 3`: both loops
fail at address 4096 after two transfers. -/
theorem mem_ops_partial_witness :
    MEMORY_SIZE ≤ c10State.reg_i + 3 ∧
    (c10State.store_mem 3).2 = some (.InvalidAddress 4096) ∧
    (c10State.store_mem 3).1.memory 4095 = 11 ∧
    (c10State.store_mem 3).1.reg_i = 4094 ∧
    (c10State.load_mem 3).2 = some (.InvalidAddress 4096) ∧
    (c10State.load_mem 3).1.reg 1 = 7 ∧
    (c10State.load_mem 3).1.memory = c10State.memory := by
  have h := mem_ops_partial c10State 3 (by decide)
  exact ⟨by decide, h.1, h.2.1 1 (by decide), h.2.2.1,
         h.2.2.2.2.1, h.2.2.2.2.2.1 1 (by decide), h.2.2.2.2.2.2.2⟩

/-! ## C4 — pc bound and fetch error condition -/

/-- Payload ranges that `decode` guarantees: register indices are
nibbles, immediates a byte, addresses 12 bits. -/
def Instruction.WF : Instruction → Prop
  | .SetPC n | .Call n | .LoadI n | .Jump n => n < 4096
  | .SeInmm x nn | .SneInmm x nn | .LoadInmm x nn | .Sum x nn | .Rand x nn =>
    x < 16 ∧ nn < 256
  | .SeReg x y | .SneReg x y | .LoadReg x y | .Or x y | .And x y | .Xor x y
  | .Add x y | .Sub x y | .ShiftRight x y | .SubRev x y | .ShiftLeft x y =>
    x < 16 ∧ y < 16
  | .Display x y n => x < 16 ∧ y < 16 ∧ n < 16
  | .Skip x | .Snkip x | .GetDelay x | .WaitKey x | .LoadDelay x | .LoadSound x
  | .AddI x | .LoadFont x | .Bcd x | .StMem x | .LdMem x => x < 16
  | .Cls | .Return => True

/-- Inverts a successful `liftEmu`. -/
theorem liftEmu_ok_inv {p : Emulator × Option EmuError} {e' : Emulator}
    (h : liftEmu p = .ok e') : p.1 = e' ∧ p.2 = none := by
  obtain ⟨a, b⟩ := p
  cases b with
  | none =>
    simp only [liftEmu] at h
    injection h with h
    exact ⟨h, rfl⟩
  | some x => simp [liftEmu] at h

/-- Inverts a successful `liftStack`. -/
theorem liftStack_ok_inv {p : Emulator × Option StackError} {e' : Emulator}
    (h : liftStack p = .ok e') : p.1 = e' ∧ p.2 = none := by
  obtain ⟨a, b⟩ := p
  cases b with
  | none =>
    simp only [liftStack] at h
    injection h with h
    exact ⟨h, rfl⟩
  | some x => simp [liftStack] at h

/-- The sprite column loop never touches `reg_pc`. -/
theorem drawBits_pc (k : Nat) :
    ∀ (x y yline sb : Nat) (e : Emulator) (xline : Nat) (e2 : Emulator),
    Emulator.drawBits x y yline sb e xline k = some e2 → e2.reg_pc = e.reg_pc := by
  induction k with
  | zero =>
    intro x y yline sb e xline e2 h
    simp only [Emulator.drawBits] at h
    injection h with h
    subst h
    rfl
  | succ k ih =>
    intro x y yline sb e xline e2 h
    simp only [Emulator.drawBits] at h
    split at h
    · split at h
      · exact Option.noConfusion h
      · split at h
        · exact Option.noConfusion h
        · have := ih _ _ _ _ _ _ _ h
          exact this
      · split at h
        · exact Option.noConfusion h
        · have := ih _ _ _ _ _ _ _ h
          exact this
    · exact ih _ _ _ _ _ _ _ h

/-- The sprite row loop never touches `reg_pc`. -/
theorem drawRows_pc (k : Nat) :
    ∀ (x y : Nat) (e : Emulator) (yline : Nat) (e2 : Emulator),
    Emulator.drawRows x y e yline k = some e2 → e2.reg_pc = e.reg_pc := by
  induction k with
  | zero =>
    intro x y e yline e2 h
    simp only [Emulator.drawRows] at h
    injection h with h
    subst h
    rfl
  | succ k ih =>
    intro x y e yline e2 h
    simp only [Emulator.drawRows] at h
    split at h
    · exact Option.noConfusion h
    · split at h
      · exact Option.noConfusion h
      · rename_i e3 hbits
        have h3 := drawBits_pc 8 _ _ _ _ _ _ _ hbits
        have h4 := ih _ _ _ _ _ h
        rw [h4, h3]

/-- A non-panicking sprite draw never touches `reg_pc`. -/
theorem displayOp_pc (e : Emulator) (x y n : Nat) (e2 : Emulator)
    (h : e.displayOp x y n = some e2) : e2.reg_pc = e.reg_pc := by
  simp only [Emulator.displayOp] at h
  have := drawRows_pc n _ _ _ 0 e2 h
  exact this

/-- The `store_mem` loop never touches `reg_pc`. -/
theorem storeMemGo_pc (c : Nat) : ∀ (e : Emulator) (r : Nat),
    (Emulator.storeMemGo e c r).1.reg_pc = e.reg_pc := by
  induction c with
  | zero => intro e r; rfl
  | succ c ih =>
    intro e r
    simp only [Emulator.storeMemGo]
    split
    · rfl
    · exact ih _ _

/-- The `load_mem` loop never touches `reg_pc`. -/
theorem loadMemGo_pc (c : Nat) : ∀ (e : Emulator) (r : Nat),
    (Emulator.loadMemGo e c r).1.reg_pc = e.reg_pc := by
  induction c with
  | zero => intro e r; rfl
  | succ c ih =>
    intro e r
    simp only [Emulator.loadMemGo]
    split
    · rfl
    · exact ih _ _

/-- Embeds `Emulator::store_mem` never touches `reg_pc`. -/
theorem store_mem_pc (e : Emulator) (x : Nat) :
    (e.store_mem x).1.reg_pc = e.reg_pc := by
  simp only [Emulator.store_mem]
  split
  · rename_i e1 heq
    have h := storeMemGo_pc (x + 1) e 0
    rw [heq] at h
    exact h
  · rename_i e1 err heq
    have h := storeMemGo_pc (x + 1) e 0
    rw [heq] at h
    exact h

/-- Embeds `Emulator::load_mem` never touches `reg_pc`. -/
theorem load_mem_pc (e : Emulator) (x : Nat) :
    (e.load_mem x).1.reg_pc = e.reg_pc := by
  simp only [Emulator.load_mem]
  split
  · rename_i e1 heq
    have h := loadMemGo_pc (x + 1) e 0
    rw [heq] at h
    exact h
  · rename_i e1 err heq
    have h := loadMemGo_pc (x + 1) e 0
    rw [heq] at h
    exact h

/-- Projects the program counter out of a successful outcome. -/
def outcomePC : Outcome → Option Nat
  | .ok e => some e.reg_pc
  | .err _ _ => none
  | .panic => none

/-- A state at the last even address, about to take a skip. -/
def c4State : Emulator :=
  { baseEmu with reg_pc := 4095, reg := fun i => if i = 0 then 7 else 0 }

/-- C4 (counterexample): from `pc = 4095 < 4096`, the taken skip
`SeInmm(0, 7)` succeeds and leaves `pc = 4097 ≥ 4096`, so `pc < 4096`
is not preserved (the fetch half of the claim does hold). -/
theorem pc_invariant_counterexample :
    c4State.reg_pc < 4096 ∧
    outcomePC (c4State.execute (.SeInmm 0 7) 0 (fun _ => false)) = some 4097 ∧
    ¬ (4097 : Nat) < 4096 :=
  ⟨by decide, rfl, by decide⟩

/-- C4 (amended): `fetch` fails with `InvalidAddress(pc)` exactly when
`pc ≥ 4095` and advances `pc` by 2 otherwise; and executing any
decoder-producible instruction successfully from a state with
`pc < 4096`, `pc ≥ 2` and all stack entries `< 4096` leaves
`pc ≤ 4097` — but not `pc < 4096`, which a taken skip at `pc = 4095`
or a `Jump` landing on 4096 exceeds. -/
theorem pc_invariant_amended :
    (∀ e : Emulator,
       (4095 ≤ e.reg_pc → (e.fetch).2 = .error (.InvalidAddress e.reg_pc)) ∧
       (e.reg_pc < 4095 →
          (e.fetch).2 = .ok (e.memory e.reg_pc * 256 + e.memory (e.reg_pc + 1)))) ∧
    (∀ (e : Emulator) (instr : Instruction) (r : Nat) (keys : Nat → Bool)
       (e' : Emulator),
       instr.WF → e.reg_pc < 4096 → 2 ≤ e.reg_pc →
       (∀ j, j < e.stack.sp → e.stack.arr j < 4096) →
       e.execute instr r keys = .ok e' → e'.reg_pc ≤ 4097) := by
  constructor
  · intro e
    constructor
    · intro h
      simp only [Emulator.fetch]
      rw [if_pos (by simp only [MEMORY_SIZE]; omega)]
    · intro h
      simp only [Emulator.fetch]
      rw [if_neg (by simp only [MEMORY_SIZE]; omega)]
  · intro e instr r keys e' hwf hpc hpc2 hstk hex
    cases instr with
    | Cls =>
      simp only [Emulator.execute] at hex
      injection hex with hex
      subst hex
      have h : (e.clear_display).reg_pc = e.reg_pc := rfl
      omega
    | Return =>
      simp only [Emulator.execute] at hex
      obtain ⟨h1, -⟩ := liftStack_ok_inv hex
      simp only [Emulator.ret, Stack.pop] at h1
      by_cases hsp : e.stack.sp = 0
      · rw [if_pos hsp] at h1
        dsimp only at h1
        subst h1
        omega
      · rw [if_neg hsp] at h1
        dsimp only at h1
        subst h1
        dsimp only
        have := hstk (e.stack.sp - 1) (by omega)
        omega
    | SetPC n =>
      simp only [Emulator.execute] at hex
      injection hex with hex
      subst hex
      have h : (e.set_pc n).reg_pc = n := rfl
      simp only [Instruction.WF] at hwf
      omega
    | Call n =>
      simp only [Emulator.execute] at hex
      obtain ⟨h1, -⟩ := liftStack_ok_inv hex
      simp only [Emulator.call, Stack.push] at h1
      by_cases hsp : STACK_SIZE ≤ e.stack.sp
      · rw [if_pos hsp] at h1
        dsimp only at h1
        subst h1
        omega
      · rw [if_neg hsp] at h1
        dsimp only at h1
        subst h1
        dsimp only
        simp only [Instruction.WF] at hwf
        omega
    | SeInmm x nn =>
      simp only [Emulator.execute, Emulator.se_inmm] at hex
      split at hex <;> (injection hex with hex; subst hex) <;> (try dsimp only) <;> omega
    | SneInmm x nn =>
      simp only [Emulator.execute, Emulator.sne_inmm] at hex
      split at hex <;> (injection hex with hex; subst hex) <;> (try dsimp only) <;> omega
    | SeReg x y =>
      simp only [Emulator.execute, Emulator.se_reg] at hex
      split at hex <;> (injection hex with hex; subst hex) <;> (try dsimp only) <;> omega
    | SneReg x y =>
      simp only [Emulator.execute, Emulator.sne_reg] at hex
      split at hex <;> (injection hex with hex; subst hex) <;> (try dsimp only) <;> omega
    | LoadInmm x nn =>
      simp only [Emulator.execute] at hex
      injection hex with hex
      subst hex
      have h : (e.load_inmm x nn).reg_pc = e.reg_pc := rfl
      omega
    | Sum x nn =>
      simp only [Emulator.execute] at hex
      injection hex with hex
      subst hex
      have h : (e.sum x nn).reg_pc = e.reg_pc := rfl
      omega
    | LoadI n =>
      simp only [Emulator.execute] at hex
      injection hex with hex
      subst hex
      have h : (e.load_i n).reg_pc = e.reg_pc := rfl
      omega
    | Jump n =>
      simp only [Emulator.execute] at hex
      obtain ⟨h1, -⟩ := liftEmu_ok_inv hex
      simp only [Emulator.jump] at h1
      split at h1
      · dsimp only at h1
        subst h1
        omega
      · dsimp only at h1
        subst h1
        dsimp only
        rename_i hc
        simp only [MEMORY_SIZE] at hc
        omega
    | Rand x nn =>
      simp only [Emulator.execute] at hex
      injection hex with hex
      subst hex
      have h : (e.rand x nn r).reg_pc = e.reg_pc := rfl
      omega
    | Display x y n =>
      simp only [Emulator.execute] at hex
      split at hex
      · rename_i e2 hdo
        injection hex with hex
        subst hex
        have h := displayOp_pc e x y n e2 hdo
        omega
      · exact Outcome.noConfusion hex
    | LoadReg x y =>
      simp only [Emulator.execute] at hex
      injection hex with hex
      subst hex
      have h : (e.load_reg x y).reg_pc = e.reg_pc := rfl
      omega
    | Or x y =>
      simp only [Emulator.execute] at hex
      injection hex with hex
      subst hex
      have h : (e.orOp x y).reg_pc = e.reg_pc := rfl
      omega
    | And x y =>
      simp only [Emulator.execute] at hex
      injection hex with hex
      subst hex
      have h : (e.andOp x y).reg_pc = e.reg_pc := rfl
      omega
    | Xor x y =>
      simp only [Emulator.execute] at hex
      injection hex with hex
      subst hex
      have h : (e.xorOp x y).reg_pc = e.reg_pc := rfl
      omega
    | Add x y =>
      simp only [Emulator.execute] at hex
      injection hex with hex
      subst hex
      have h : (e.add x y).reg_pc = e.reg_pc := rfl
      omega
    | Sub x y =>
      simp only [Emulator.execute] at hex
      injection hex with hex
      subst hex
      have h : (e.sub x y).reg_pc = e.reg_pc := rfl
      omega
    | SubRev x y =>
      simp only [Emulator.execute] at hex
      injection hex with hex
      subst hex
      have h : (e.rev_sub x y).reg_pc = e.reg_pc := rfl
      omega
    | ShiftRight x y =>
      simp only [Emulator.execute] at hex
      injection hex with hex
      subst hex
      have h : (e.right_shift x y).reg_pc = e.reg_pc := rfl
      omega
    | ShiftLeft x y =>
      simp only [Emulator.execute] at hex
      injection hex with hex
      subst hex
      have h : (e.left_shift x y).reg_pc = e.reg_pc := rfl
      omega
    | Skip x =>
      simp only [Emulator.execute] at hex
      obtain ⟨h1, -⟩ := liftEmu_ok_inv hex
      simp only [Emulator.skip_key] at h1
      split at h1
      · dsimp only at h1; subst h1; omega
      · split at h1
        · dsimp only at h1; subst h1; dsimp only; omega
        · dsimp only at h1; subst h1; omega
    | Snkip x =>
      simp only [Emulator.execute] at hex
      obtain ⟨h1, -⟩ := liftEmu_ok_inv hex
      simp only [Emulator.snkip_key] at h1
      split at h1
      · dsimp only at h1; subst h1; omega
      · split at h1
        · dsimp only at h1; subst h1; omega
        · dsimp only at h1; subst h1; dsimp only; omega
    | GetDelay x =>
      simp only [Emulator.execute] at hex
      injection hex with hex
      subst hex
      have h : (e.get_delay x).reg_pc = e.reg_pc := rfl
      omega
    | WaitKey x =>
      simp only [Emulator.execute] at hex
      obtain ⟨h1, -⟩ := liftEmu_ok_inv hex
      simp only [Emulator.wait_key] at h1
      split at h1
      · dsimp only at h1; subst h1; omega
      · split at h1
        · dsimp only at h1; subst h1; omega
        · dsimp only at h1
          subst h1
          dsimp only
          have hp64 : (2 : Nat) ^ 64 = 18446744073709551616 := by norm_num
          rw [hp64]
          omega
    | LoadDelay x =>
      simp only [Emulator.execute] at hex
      injection hex with hex
      subst hex
      have h : (e.load_delay x).reg_pc = e.reg_pc := rfl
      omega
    | LoadSound x =>
      simp only [Emulator.execute] at hex
      injection hex with hex
      subst hex
      have h : (e.load_sound x).reg_pc = e.reg_pc := rfl
      omega
    | AddI x =>
      simp only [Emulator.execute] at hex
      injection hex with hex
      subst hex
      have h : (e.add_to_index x).reg_pc = e.reg_pc := rfl
      omega
    | LoadFont x =>
      simp only [Emulator.execute] at hex
      obtain ⟨h1, -⟩ := liftEmu_ok_inv hex
      simp only [Emulator.load_font] at h1
      split at h1
      · dsimp only at h1; subst h1; dsimp only; omega
      · dsimp only at h1; subst h1; omega
    | Bcd x =>
      simp only [Emulator.execute] at hex
      obtain ⟨h1, -⟩ := liftEmu_ok_inv hex
      simp only [Emulator.binary_dec] at h1
      split at h1
      · dsimp only at h1; subst h1; omega
      · split at h1
        · dsimp only at h1; subst h1; omega
        · split at h1
          · dsimp only at h1; subst h1; omega
          · dsimp only at h1; subst h1; dsimp only; omega
    | StMem x =>
      simp only [Emulator.execute] at hex
      obtain ⟨h1, -⟩ := liftEmu_ok_inv hex
      have h := store_mem_pc e x
      rw [h1] at h
      omega
    | LdMem x =>
      simp only [Emulator.execute] at hex
      obtain ⟨h1, -⟩ := liftEmu_ok_inv hex
      have h := load_mem_pc e x
      rw [h1] at h
      omega

/-- Witness for `pc_invariant_amended`: a fetch at `pc = 4095` fails,
and `Cls` from the reset state keeps `pc` in bounds. -/
theorem pc_invariant_amended_witness :
    (4095 ≤ ({ baseEmu with reg_pc := 4095 } : Emulator).reg_pc ∧
     (({ baseEmu with reg_pc := 4095 } : Emulator).fetch).2 =
       .error (.InvalidAddress 4095)) ∧
    (baseEmu.clear_display).reg_pc ≤ 4097 := by
  constructor
  · exact ⟨by decide, (pc_invariant_amended.1 _).1 (by decide)⟩
  · exact pc_invariant_amended.2 baseEmu .Cls 0 (fun _ => false)
      baseEmu.clear_display trivial (by decide) (by decide)
      (fun j hj => absurd hj (Nat.not_lt_zero j)) rfl

/-! ## C8 — frame scheduling -/

/-- A frame's inner loop that runs to completion emits exactly `n`
cycle events. -/
theorem runCyclesTr_ok (r : Nat → Nat) (keys : Nat → Bool) (n : Nat) :
    ∀ (e : Emulator) (k : Nat), (runCyclesTr r keys e k n).2.isSome = true →
    (runCyclesTr r keys e k n).1 = List.replicate n FrameEvent.exec := by
  induction n with
  | zero => intro e k _; rfl
  | succ n ih =>
    intro e k h
    simp only [runCyclesTr] at h ⊢
    cases hcs : cycleStep e (r k) keys with
    | ok e1 =>
      rw [hcs] at h
      dsimp only at h ⊢
      rw [List.replicate_succ]
      exact congrArg (List.cons FrameEvent.exec) (ih e1 (k + 1) h)
    | err e1 x =>
      rw [hcs] at h
      dsimp only at h
      exact absurd h (by simp)
    | panic =>
      rw [hcs] at h
      dsimp only at h
      exact absurd h (by simp)

/-- Every event of the inner loop's trace is a cycle event (the timer
tick is emitted only by `frame` itself, once). -/
theorem runCyclesTr_tail (r : Nat → Nat) (keys : Nat → Bool) (n : Nat) :
    ∀ (e : Emulator) (k : Nat) (ev : FrameEvent),
    ev ∈ (runCyclesTr r keys e k n).1 → ev = FrameEvent.exec := by
  induction n with
  | zero => intro e k ev h; simp [runCyclesTr] at h
  | succ n ih =>
    intro e k ev h
    simp only [runCyclesTr] at h
    cases hcs : cycleStep e (r k) keys with
    | ok e1 =>
      rw [hcs] at h
      dsimp only at h
      rcases List.mem_cons.mp h with h | h
      · exact h
      · exact ih e1 (k + 1) ev h
    | err e1 x =>
      rw [hcs] at h
      dsimp only at h
      simpa using h
    | panic =>
      rw [hcs] at h
      dsimp only at h
      simpa using h

/-- C8: the per-frame cycle budget is `max 1 (C / 60)`; a frame that
completes without error emits the timer tick followed by exactly
`max 1 (C / 60)` fetch–decode–execute cycles; and in every frame —
aborted or not — the trace starts with the single timer tick, before
any cycle. -/
theorem frame_schedule :
    (∀ C : Nat, cyclesPerFrame C = max 1 (C / 60)) ∧
    (∀ (C : Nat) (r : Nat → Nat) (keys : Nat → Bool) (e : Emulator),
       (frame C r keys e).2.isSome = true →
       (frame C r keys e).1 =
         FrameEvent.timerTick :: List.replicate (max 1 (C / 60)) FrameEvent.exec) ∧
    (∀ (C : Nat) (r : Nat → Nat) (keys : Nat → Bool) (e : Emulator),
       (frame C r keys e).1.head? = some FrameEvent.timerTick ∧
       ∀ ev ∈ (frame C r keys e).1.tail, ev = FrameEvent.exec) := by
  have hcpf : ∀ C : Nat, cyclesPerFrame C = max 1 (C / 60) := by
    intro C
    simp only [cyclesPerFrame, TARGET_FPS]
    split <;> omega
  refine ⟨hcpf, ?_, ?_⟩
  · intro C r keys e h
    simp only [frame] at h ⊢
    rw [runCyclesTr_ok r keys (cyclesPerFrame C) _ 0 h, hcpf]
  · intro C r keys e
    refine ⟨rfl, ?_⟩
    intro ev hev
    simp only [frame, List.tail_cons] at hev
    exact runCyclesTr_tail r keys (cyclesPerFrame C) _ 0 ev hev

/-- A state whose program is the self-jump `0x1200` at `0x200`. -/
def c8State : Emulator :=
  { baseEmu with memory := update (fun _ => 0) 0x200 0x12 }

/-- Witness for `frame_schedule`: at 120 cycles per second a clean
frame is one timer tick followed by exactly two cycles. -/
theorem frame_schedule_witness :
    cyclesPerFrame 120 = max 1 (120 / 60) ∧
    (frame 120 (fun _ => 0) (fun _ => false) c8State).2.isSome = true ∧
    (frame 120 (fun _ => 0) (fun _ => false) c8State).1 =
      [FrameEvent.timerTick, FrameEvent.exec, FrameEvent.exec] := by
  refine ⟨frame_schedule.1 120, rfl, ?_⟩
  have h := frame_schedule.2.1 120 (fun _ => 0) (fun _ => false) c8State rfl
  rw [h]
  rfl

end Ferret8
